import Mathlib

/-!
Verification of the ADX screening backtest core
(`src/indicators/adx.ts`, `src/strategies/adx-screening.ts`,
`src/backtesting/backtest-engine.ts`).

The embedding uses exact rational arithmetic (`ℚ`) for the numeric
fields; JavaScript's number arithmetic is modelled by the corresponding
exact field operations, and JavaScript's `x / 0` guards in the source are
all explicit conditionals, so no division by zero is reachable in the
guarded expressions. Optional/absent values (`undefined` in the source)
are `Option`.
-/

namespace ADXBacktest

/-- One OHLC price bar (`Candle` in `adx.ts`). -/
structure Candle where
  high : ℚ
  low : ℚ
  close : ℚ
  open_ : ℚ
  timestamp : ℤ
deriving DecidableEq, Repr

instance : Inhabited Candle := ⟨⟨0, 0, 0, 0, 0⟩⟩

/-- Structure `ADXResult` in `adx.ts`: adx, plusDI, minusDI. -/
structure ADXResult where
  adx : ℚ
  plusDI : ℚ
  minusDI : ℚ
deriving DecidableEq, Repr

/-- Function `calculateTrueRange(candles, index)` from `adx.ts`:
for index 0 it is `high - low`; otherwise
`max(high - low, |high - prevClose|, |low - prevClose|)`. -/
def calculateTrueRange (candles : List Candle) (index : Nat) : ℚ :=
  if index = 0 then
    (candles.getD 0 default).high - (candles.getD 0 default).low
  else
    let current := candles.getD index default
    let previous := candles.getD (index - 1) default
    max (current.high - current.low)
      (max |current.high - previous.close| |current.low - previous.close|)

/-- The `+DM` value pushed at `index` in the first loop of `calculateADX`:
`highDiff` when `highDiff > lowDiff && highDiff > 0`, else 0 (0 at index 0). -/
def plusDMAt (candles : List Candle) (index : Nat) : ℚ :=
  if index = 0 then 0
  else
    let highDiff := (candles.getD index default).high - (candles.getD (index - 1) default).high
    let lowDiff := (candles.getD (index - 1) default).low - (candles.getD index default).low
    if lowDiff < highDiff ∧ 0 < highDiff then highDiff else 0

/-- The `-DM` value pushed at `index` in the first loop of `calculateADX`:
`lowDiff` when `lowDiff > highDiff && lowDiff > 0`, else 0 (0 at index 0). -/
def minusDMAt (candles : List Candle) (index : Nat) : ℚ :=
  if index = 0 then 0
  else
    let highDiff := (candles.getD index default).high - (candles.getD (index - 1) default).high
    let lowDiff := (candles.getD (index - 1) default).low - (candles.getD index default).low
    if highDiff < lowDiff ∧ 0 < lowDiff then lowDiff else 0

/-- Sum of `f lo, f (lo+1), …, f (lo+p-1)`: the value of
`xs.slice(lo, lo+p).reduce((sum, v) => sum + v, 0)` for the per-index
arrays of `calculateADX`. -/
def windowSum (f : Nat → ℚ) (lo p : Nat) : ℚ :=
  ((List.range p).map fun j => f (lo + j)).sum

/-- The mutable state of the second loop of `calculateADX`
(`smoothedTR`, `smoothedPlusDM`, `smoothedMinusDM`, `smoothedDX`, `dxValues`). -/
structure ADXState where
  smoothedTR : ℚ
  smoothedPlusDM : ℚ
  smoothedMinusDM : ℚ
  smoothedDX : Option ℚ
  dxValues : List ℚ
deriving DecidableEq, Repr

/-- One iteration of the second loop of `calculateADX` at loop index `i`
(`prev = none` encodes the `smoothedTR === undefined` initial branch,
which in the source fires exactly at `i = period`; there the slice
`(i - period + 1, i + 1)` covers indices `i-period+1 … i`). -/
def adxStep (candles : List Candle) (p : Nat) (i : Nat) (prev : Option ADXState) :
    ADXState × ADXResult :=
  let sTR : ℚ := match prev with
    | none => windowSum (calculateTrueRange candles) (i - p + 1) p / (p : ℚ)
    | some s => (s.smoothedTR * ((p : ℚ) - 1) + calculateTrueRange candles i) / (p : ℚ)
  let sPDM : ℚ := match prev with
    | none => windowSum (plusDMAt candles) (i - p + 1) p / (p : ℚ)
    | some s => (s.smoothedPlusDM * ((p : ℚ) - 1) + plusDMAt candles i) / (p : ℚ)
  let sMDM : ℚ := match prev with
    | none => windowSum (minusDMAt candles) (i - p + 1) p / (p : ℚ)
    | some s => (s.smoothedMinusDM * ((p : ℚ) - 1) + minusDMAt candles i) / (p : ℚ)
  let plusDI : ℚ := if 0 < sTR then sPDM / sTR * 100 else 0
  let minusDI : ℚ := if 0 < sTR then sMDM / sTR * 100 else 0
  let diSum := plusDI + minusDI
  let dx : ℚ := if 0 < diSum then |plusDI - minusDI| / diSum * 100 else 0
  let dxValues := (match prev with | none => ([] : List ℚ) | some s => s.dxValues) ++ [dx]
  let sDXadx : Option ℚ × ℚ :=
    if p ≤ dxValues.length then
      match prev.bind ADXState.smoothedDX with
      | none =>
          let v := (dxValues.drop (dxValues.length - p)).sum / (p : ℚ)
          (some v, v)
      | some sd =>
          let v := (sd * ((p : ℚ) - 1) + dx) / (p : ℚ)
          (some v, v)
    else (none, 0)
  (⟨sTR, sPDM, sMDM, sDXadx.1, dxValues⟩, ⟨sDXadx.2, plusDI, minusDI⟩)

/-- State and emitted `ADXResult` after iteration `k` of the second loop of
`calculateADX`; iteration `k` handles loop index `i = period + k`. -/
def adxIter (candles : List Candle) (p : Nat) : Nat → ADXState × ADXResult
  | 0 => adxStep candles p p none
  | k + 1 => adxStep candles p (p + k + 1) (some (adxIter candles p k).1)

/-- Function `calculateADX(candles, period)` from `adx.ts`: all-`undefined` when
`candles.length < period * 2`; otherwise `results[i]` is `undefined` for
`i < period` and the loop's emitted sample for `period ≤ i`. -/
def calculateADX (candles : List Candle) (p : Nat) : List (Option ADXResult) :=
  if candles.length < p * 2 then List.replicate candles.length none
  else (List.range candles.length).map
    fun i => if i < p then none else some (adxIter candles p (i - p)).2

/-- Function `getADXValue(candles, index, period)` from `adx.ts`: recompute
`calculateADX` on the prefix `candles.slice(0, index + 1)` and read
the last entry's `adx` field (`result?.adx`). -/
def getADXValue (candles : List Candle) (index : Nat) (p : Nat) : Option ℚ :=
  let adxResults := calculateADX (candles.take (index + 1)) p
  (adxResults.getD (adxResults.length - 1) none).map ADXResult.adx

/-- Structure `ADXScreeningParams` from `adx-screening.ts`. -/
structure ADXScreeningParams where
  pADXPeriodo : Nat
  pADXMaxLateral : ℚ
deriving DecidableEq, Repr

/-- Structure `ScreeningResult` from `adx-screening.ts`. -/
structure ScreeningResult where
  screening : Bool
  adxValue : ℚ
  isLateral : Bool
  timestamp : ℤ
deriving DecidableEq, Repr

/-- Method `ADXScreeningStrategy.screen(candles, index)`: `undefined` when
`index < pADXPeriodo * 2`; otherwise recompute ADX over the prefix
`candles.slice(0, index + 1)`, and return `undefined` when the last
sample is absent or its `adx` is exactly 0; else a `ScreeningResult`
with `isLateral = adx ≤ pADXMaxLateral`. -/
def screen (params : ADXScreeningParams) (candles : List Candle) (index : Nat) :
    Option ScreeningResult :=
  if index < params.pADXPeriodo * 2 then none
  else
    let adxResults := calculateADX (candles.take (index + 1)) params.pADXPeriodo
    match adxResults.getD (adxResults.length - 1) none with
    | none => none
    | some adxResult =>
        if adxResult.adx = 0 then none
        else
          let isLateral := decide (adxResult.adx ≤ params.pADXMaxLateral)
          some { screening := isLateral, adxValue := adxResult.adx, isLateral := isLateral,
                 timestamp := (candles.getD index default).timestamp }

/-- Method `ADXScreeningStrategy.screenAll(candles)`: one `screen` result per index. -/
def screenAll (params : ADXScreeningParams) (candles : List Candle) :
    List (Option ScreeningResult) :=
  (List.range candles.length).map fun i => screen params candles i

/-- Position side (`'long' | 'short'`). -/
inductive PosType where
  | long
  | short
deriving DecidableEq, Repr

/-- Trading mode (`'long' | 'short' | 'both'`). -/
inductive TradingMode where
  | long
  | short
  | both
deriving DecidableEq, Repr

/-- Structure `Trade` from `backtest-engine.ts`. -/
structure Trade where
  entryIndex : Nat
  exitIndex : Nat
  entryPrice : ℚ
  exitPrice : ℚ
  entryTime : ℤ
  exitTime : ℤ
  pnl : ℚ
  pnlPercent : ℚ
  type : PosType
deriving DecidableEq, Repr

instance : Inhabited Trade := ⟨⟨0, 0, 0, 0, 0, 0, 0, 0, .long⟩⟩

/-- Structure `BacktestConfig` from `backtest-engine.ts`; `maxHoldingPeriod` is
optional (`undefined` = no limit). -/
structure BacktestConfig where
  initialCapital : ℚ
  positionSize : ℚ
  commission : ℚ
  slippage : ℚ
  maxHoldingPeriod : Option Nat
  tradingMode : TradingMode
deriving DecidableEq, Repr

/-- The open-position record of `BacktestEngine.run`
(`{ type, entryIndex, entryPrice }`). -/
structure Position where
  type : PosType
  entryIndex : Nat
  entryPrice : ℚ
deriving DecidableEq, Repr

/-- The mutable locals of the candle loop of `BacktestEngine.run`. -/
structure RunState where
  capital : ℚ
  peakCapital : ℚ
  maxDrawdown : ℚ
  position : Option Position
  screeningSignals : Nat
  trades : List Trade
deriving DecidableEq, Repr

/-- The position built by the entry branch of `BacktestEngine.run` at
candle `i`: mode `long`/`both` opens a long at `close * (1 + slippage)`;
mode `short` opens a short at `close * (1 - slippage)`. -/
def openPosition (cfg : BacktestConfig) (candles : List Candle) (i : Nat) : Position :=
  match cfg.tradingMode with
  | .long | .both =>
      { type := .long, entryIndex := i,
        entryPrice := (candles.getD i default).close * (1 + cfg.slippage) }
  | .short =>
      { type := .short, entryIndex := i,
        entryPrice := (candles.getD i default).close * (1 - cfg.slippage) }

/-- The `maxHoldingPeriod && i - entryIndex >= maxHoldingPeriod` test
(JavaScript truthiness: `undefined` and `0` are falsy). -/
def mhpReached : Option Nat → Nat → Bool
  | none, _ => false
  | some h, d => h != 0 && decide (h ≤ d)

/-- The trade record built when closing `position` at candle `exitIdx`
with the running `capital`: slippage-adjusted exit price, raw percent
return by side, round-trip commission, and dollar PnL
`capital * positionSize * pnlPercent` (this block is duplicated verbatim
in the source between the loop close and the end-of-run forced close). -/
def mkTrade (cfg : BacktestConfig) (candles : List Candle) (position : Position)
    (exitIdx : Nat) (capital : ℚ) : Trade :=
  let exitPrice : ℚ := match position.type with
    | .long => (candles.getD exitIdx default).close * (1 - cfg.slippage)
    | .short => (candles.getD exitIdx default).close * (1 + cfg.slippage)
  let rawPercent : ℚ := match position.type with
    | .long => (exitPrice - position.entryPrice) / position.entryPrice
    | .short => (position.entryPrice - exitPrice) / position.entryPrice
  let pnlPercent := rawPercent - cfg.commission * 2
  let pnl := capital * cfg.positionSize * pnlPercent
  { entryIndex := position.entryIndex, exitIndex := exitIdx,
    entryPrice := position.entryPrice, exitPrice := exitPrice,
    entryTime := (candles.getD position.entryIndex default).timestamp,
    exitTime := (candles.getD exitIdx default).timestamp,
    pnl := pnl, pnlPercent := pnlPercent, type := position.type }

/-- One iteration of the candle loop of `BacktestEngine.run` at index `i`:
skip when the screening result is `undefined`; count lateral signals;
enter when no position is held and the signal is lateral (then `continue`);
otherwise close a held position when the signal is non-lateral or the
holding period has elapsed, updating capital, the trade list, and the
peak/drawdown accumulators. -/
def runStep (cfg : BacktestConfig) (candles : List Candle)
    (scrs : List (Option ScreeningResult)) (st : RunState) (i : Nat) : RunState :=
  match scrs.getD i none with
  | none => st
  | some screening =>
    match st.position with
    | none =>
        if screening.screening then
          { st with screeningSignals := st.screeningSignals + 1,
                    position := some (openPosition cfg candles i) }
        else st
    | some position =>
        if !screening.screening || mhpReached cfg.maxHoldingPeriod (i - position.entryIndex) then
          let t := mkTrade cfg candles position i st.capital
          let capital := st.capital + t.pnl
          let peak := max st.peakCapital capital
          { st with screeningSignals := if screening.screening then st.screeningSignals + 1
                                        else st.screeningSignals,
                    capital := capital,
                    peakCapital := peak,
                    maxDrawdown := max st.maxDrawdown (peak - capital),
                    trades := st.trades ++ [t],
                    position := none }
        else
          { st with screeningSignals := if screening.screening then st.screeningSignals + 1
                                        else st.screeningSignals }

/-- The loop state of `BacktestEngine.run` after processing candle
indices `0, …, n-1`. -/
def runStates (cfg : BacktestConfig) (candles : List Candle)
    (scrs : List (Option ScreeningResult)) : Nat → RunState
  | 0 => { capital := cfg.initialCapital, peakCapital := cfg.initialCapital,
           maxDrawdown := 0, position := none, screeningSignals := 0, trades := [] }
  | n + 1 => runStep cfg candles scrs (runStates cfg candles scrs n) n

/-- The loop state after the whole candle loop. -/
def runLoop (cfg : BacktestConfig) (candles : List Candle)
    (scrs : List (Option ScreeningResult)) : RunState :=
  runStates cfg candles scrs candles.length

/-- The end-of-run forced close of `BacktestEngine.run`: when a position
is still open (and the series is nonempty) it is closed at the last
candle; capital and the trade list are updated, but — unlike the in-loop
close — `peakCapital` and `maxDrawdown` are left untouched. -/
def forcedClose (cfg : BacktestConfig) (candles : List Candle) (st : RunState) : RunState :=
  match st.position with
  | none => st
  | some position =>
      if candles.length = 0 then st
      else
        let t := mkTrade cfg candles position (candles.length - 1) st.capital
        { st with capital := st.capital + t.pnl, trades := st.trades ++ [t] }

/-- The `profitFactor` value: a finite rational or `Infinity`. -/
inductive PF where
  | finite (v : ℚ)
  | posInf
deriving DecidableEq, Repr

/-- Evaluation of `Math.max(...l)` on a nonempty list (the source only evaluates it on
nonempty lists). -/
def listMax : List ℚ → ℚ
  | [] => 0
  | x :: xs => xs.foldl max x

/-- Evaluation of `Math.min(...l)` on a nonempty list. -/
def listMin : List ℚ → ℚ
  | [] => 0
  | x :: xs => xs.foldl min x

/-- Structure `BacktestResult` from `backtest-engine.ts`. The `sharpeRatio` field is
omitted: it is `mean / Math.sqrt(variance)` and is in general irrational,
and no verified property concerns it. -/
structure BacktestResult where
  trades : List Trade
  totalTrades : Nat
  winningTrades : Nat
  losingTrades : Nat
  winRate : ℚ
  totalPnL : ℚ
  totalPnLPercent : ℚ
  averagePnL : ℚ
  averageWin : ℚ
  averageLoss : ℚ
  largestWin : ℚ
  largestLoss : ℚ
  profitFactor : PF
  finalCapital : ℚ
  maxDrawdown : ℚ
  maxDrawdownPercent : ℚ
  screeningSignals : Nat
  screeningSuccessRate : ℚ
deriving DecidableEq, Repr

/-- Method `BacktestEngine.calculateMetrics(trades, finalCapital, maxDrawdown,
screeningSignals)`: the summary-statistics record, with the source's
degenerate-case conventions (`0` for empty sets, `Infinity` when
`grossLoss = 0 < grossProfit`). -/
def calculateMetrics (cfg : BacktestConfig) (trades : List Trade)
    (finalCapital maxDrawdown : ℚ) (screeningSignals : Nat) : BacktestResult :=
  let totalTrades := trades.length
  let wins := trades.filter fun t => 0 < t.pnl
  let losses := trades.filter fun t => t.pnl < 0
  let winningTrades := wins.length
  let losingTrades := losses.length
  let winRate : ℚ := if 0 < totalTrades then (winningTrades : ℚ) / (totalTrades : ℚ) else 0
  let totalPnL := (trades.map Trade.pnl).sum
  let totalPnLPercent := (finalCapital - cfg.initialCapital) / cfg.initialCapital * 100
  let averagePnL : ℚ := if 0 < totalTrades then totalPnL / (totalTrades : ℚ) else 0
  let averageWin : ℚ :=
    if 0 < wins.length then (wins.map Trade.pnl).sum / (wins.length : ℚ) else 0
  let averageLoss : ℚ :=
    if 0 < losses.length then (losses.map Trade.pnl).sum / (losses.length : ℚ) else 0
  let largestWin : ℚ := if 0 < wins.length then listMax (wins.map Trade.pnl) else 0
  let largestLoss : ℚ := if 0 < losses.length then listMin (losses.map Trade.pnl) else 0
  let grossProfit := (wins.map Trade.pnl).sum
  let grossLoss := |(losses.map Trade.pnl).sum|
  let profitFactor : PF :=
    if 0 < grossLoss then PF.finite (grossProfit / grossLoss)
    else if 0 < grossProfit then PF.posInf
    else PF.finite 0
  let maxDrawdownPercent := maxDrawdown / cfg.initialCapital * 100
  let screeningSuccessRate : ℚ :=
    if 0 < screeningSignals then (winningTrades : ℚ) / (screeningSignals : ℚ) * 100 else 0
  { trades := trades, totalTrades := totalTrades, winningTrades := winningTrades,
    losingTrades := losingTrades, winRate := winRate * 100, totalPnL := totalPnL,
    totalPnLPercent := totalPnLPercent, averagePnL := averagePnL, averageWin := averageWin,
    averageLoss := averageLoss, largestWin := largestWin, largestLoss := largestLoss,
    profitFactor := profitFactor, finalCapital := finalCapital, maxDrawdown := maxDrawdown,
    maxDrawdownPercent := maxDrawdownPercent, screeningSignals := screeningSignals,
    screeningSuccessRate := screeningSuccessRate }

/-- Method `BacktestEngine.run(candles)`: screen every candle, run the candle
loop, force-close any still-open position, and aggregate the metrics. -/
def run (cfg : BacktestConfig) (params : ADXScreeningParams)
    (candles : List Candle) : BacktestResult :=
  let scrs := screenAll params candles
  let st := forcedClose cfg candles (runLoop cfg candles scrs)
  calculateMetrics cfg st.trades st.capital st.maxDrawdown st.screeningSignals

/-! Equity-trace bookkeeping: capital compounds trade-by-trade, the peak
and drawdown accumulators follow each close. This is the reference
description of the in-loop updates, used to state C1 and C5. -/

/-- Running capital, peak capital and max drawdown. -/
structure EquityAcc where
  cap : ℚ
  peak : ℚ
  dd : ℚ
deriving DecidableEq, Repr

/-- One trade close on the equity trace: add the pnl, then
`peak = max(peak, cap)` and `dd = max(dd, peak - cap)`. -/
def ddStep (a : EquityAcc) (pnl : ℚ) : EquityAcc :=
  let cap := a.cap + pnl
  let peak := max a.peak cap
  { cap := cap, peak := peak, dd := max a.dd (peak - cap) }

/-- Equity trace over a pnl sequence starting from `init` capital. -/
def equityFold (init : ℚ) (pnls : List ℚ) : EquityAcc :=
  pnls.foldl ddStep { cap := init, peak := init, dd := 0 }

/-- Modelled from the spec: the profit-factor conventions of §4.4 —
`grossProfit / grossLoss`; `+infinity` if `grossLoss = 0` and
`grossProfit > 0`; `0` if both are 0. -/
def specProfitFactor (grossProfit grossLoss : ℚ) : PF :=
  if 0 < grossLoss then PF.finite (grossProfit / grossLoss)
  else if grossLoss = 0 ∧ 0 < grossProfit then PF.posInf
  else PF.finite 0

/-- Gross profit of a trade list (sum of positive pnls), as in
`calculateMetrics`. -/
def grossProfitOf (trades : List Trade) : ℚ :=
  ((trades.filter fun t => 0 < t.pnl).map Trade.pnl).sum

/-- Gross loss of a trade list (absolute sum of negative pnls), as in
`calculateMetrics`. -/
def grossLossOf (trades : List Trade) : ℚ :=
  |((trades.filter fun t => t.pnl < 0).map Trade.pnl).sum|

/-! Concrete inputs used by counterexamples and witnesses. With
`period = 1` a screening signal exists from index 2 on, and its `adx`
value is `100` on strictly rising candles and `0` (hence an absent
signal) when the high rises by exactly as much as the low falls. -/

/-- Three rising candles. -/
def candlesUp3 : List Candle :=
  [⟨10, 9, 9, 9, 0⟩, ⟨11, 10, 10, 10, 1⟩, ⟨12, 11, 11, 11, 2⟩]

/-- Four rising candles. -/
def candlesUp4 : List Candle := candlesUp3 ++ [⟨13, 12, 12, 12, 3⟩]

/-- Five rising candles. -/
def candlesUp5 : List Candle := candlesUp4 ++ [⟨14, 13, 13, 13, 4⟩]

/-- Three rising candles, then one widening candle (high +1, low -1,
close drops to 10): its screening signal is absent and the close is
below the index-2 entry. -/
def candlesDrop4 : List Candle := candlesUp3 ++ [⟨13, 10, 10, 10, 3⟩]

/-- Series `candlesDrop4` plus one more widening candle with an absent
signal. -/
def candlesDrop5 : List Candle := candlesDrop4 ++ [⟨14, 9, 10, 10, 4⟩]

/-- Period 1, lateral threshold 1000: every defined signal is lateral. -/
def paramsP1 : ADXScreeningParams := ⟨1, 1000⟩

/-- Capital 100, full position size, no commission, no slippage, no
holding-period cap, long mode. -/
def cfgPlain : BacktestConfig :=
  { initialCapital := 100, positionSize := 1, commission := 0, slippage := 0,
    maxHoldingPeriod := none, tradingMode := .long }

/-- Configuration `cfgPlain` with `maxHoldingPeriod = 1`. -/
def cfgHold1 : BacktestConfig := { cfgPlain with maxHoldingPeriod := some 1 }

/-! List helper lemmas. -/

theorem getD_range_map {α : Type} (f : Nat → α) (L i : Nat) (d : α) (h : i < L) :
    ((List.range L).map f).getD i d = f i := by
  simp [List.getD_eq_getElem?_getD, List.getElem?_map, List.getElem?_range h]

theorem getD_replicate_none {α : Type} (L i : Nat) :
    (List.replicate L (none : Option α)).getD i none = none := by
  rcases lt_or_le i L with h | h
  · simp [List.getD_eq_getElem?_getD, List.getElem?_replicate, h]
  · simp [List.getD_eq_getElem?_getD, List.getElem?_replicate, Nat.not_lt.2 h]

theorem getD_take {α : Type} (l : List α) (n j : Nat) (d : α) (h : j < n) :
    (l.take n).getD j d = l.getD j d := by
  simp [List.getD_eq_getElem?_getD, List.getElem?_take, h]

theorem chained_snoc {α : Type} {R : α → α → Prop} {l : List α} {a : α}
    (hl : List.Chain' R l) (ha : ∀ x ∈ l, R x a) : List.Chain' R (l ++ [a]) := by
  refine List.chain'_append.2 ⟨hl, List.chain'_singleton a, ?_⟩
  intro x hx y hy
  simp only [List.head?_cons, Option.mem_def, Option.some.injEq] at hy
  exact hy ▸ ha x (List.mem_of_mem_getLast? hx)

theorem equityFold_append (init : ℚ) (l : List ℚ) (x : ℚ) :
    equityFold init (l ++ [x]) = ddStep (equityFold init l) x := by
  simp [equityFold, List.foldl_append]

theorem foldl_ddStep_cap (l : List ℚ) : ∀ a : EquityAcc, (l.foldl ddStep a).cap = a.cap + l.sum := by
  induction l with
  | nil => intro a; simp
  | cons x xs ih =>
      intro a
      simp only [List.foldl_cons, List.sum_cons, ih, ddStep]
      ring

theorem equityFold_cap (init : ℚ) (l : List ℚ) : (equityFold init l).cap = init + l.sum :=
  foldl_ddStep_cap l _

/-! Prefix-stability of the ADX recurrence: everything iteration `k`
reads lives at candle indices at most `period + k`. -/

theorem calculateTrueRange_take (c : List Candle) (n j : Nat) (h : j < n) :
    calculateTrueRange (c.take n) j = calculateTrueRange c j := by
  unfold calculateTrueRange
  rcases Nat.eq_zero_or_pos j with rfl | hj
  · rw [if_pos rfl, if_pos rfl, getD_take c n 0 default h]
  · rw [if_neg (Nat.pos_iff_ne_zero.1 hj), if_neg (Nat.pos_iff_ne_zero.1 hj),
      getD_take c n j default h, getD_take c n (j - 1) default (lt_of_le_of_lt (Nat.sub_le j 1) h)]

theorem plusDMAt_take (c : List Candle) (n j : Nat) (h : j < n) :
    plusDMAt (c.take n) j = plusDMAt c j := by
  unfold plusDMAt
  rcases Nat.eq_zero_or_pos j with rfl | hj
  · simp
  · rw [if_neg (Nat.pos_iff_ne_zero.1 hj), if_neg (Nat.pos_iff_ne_zero.1 hj),
      getD_take c n j default h, getD_take c n (j - 1) default (lt_of_le_of_lt (Nat.sub_le j 1) h)]

theorem minusDMAt_take (c : List Candle) (n j : Nat) (h : j < n) :
    minusDMAt (c.take n) j = minusDMAt c j := by
  unfold minusDMAt
  rcases Nat.eq_zero_or_pos j with rfl | hj
  · simp
  · rw [if_neg (Nat.pos_iff_ne_zero.1 hj), if_neg (Nat.pos_iff_ne_zero.1 hj),
      getD_take c n j default h, getD_take c n (j - 1) default (lt_of_le_of_lt (Nat.sub_le j 1) h)]

theorem windowSum_congr {f g : Nat → ℚ} (lo p : Nat) (h : ∀ j < p, f (lo + j) = g (lo + j)) :
    windowSum f lo p = windowSum g lo p := by
  unfold windowSum
  congr 1
  exact List.map_congr_left fun j hj => h j (List.mem_range.1 hj)

theorem adxStep_take (c : List Candle) (p n i : Nat) (prev : Option ADXState)
    (hi : i < n) (hlo : i - p + 1 + p ≤ i + 1) :
    adxStep (c.take n) p i prev = adxStep c p i prev := by
  unfold adxStep
  rw [calculateTrueRange_take c n i hi,
    windowSum_congr (i - p + 1) p (fun j hj => calculateTrueRange_take c n (i - p + 1 + j)
      (lt_of_le_of_lt (Nat.lt_succ_iff.1 (lt_of_lt_of_le (Nat.add_lt_add_left hj _) hlo)) hi)),
    windowSum_congr (i - p + 1) p (fun j hj => plusDMAt_take c n (i - p + 1 + j)
      (lt_of_le_of_lt (Nat.lt_succ_iff.1 (lt_of_lt_of_le (Nat.add_lt_add_left hj _) hlo)) hi)),
    windowSum_congr (i - p + 1) p (fun j hj => minusDMAt_take c n (i - p + 1 + j)
      (lt_of_le_of_lt (Nat.lt_succ_iff.1 (lt_of_lt_of_le (Nat.add_lt_add_left hj _) hlo)) hi)),
    plusDMAt_take c n i hi, minusDMAt_take c n i hi]

theorem adxIter_take (c : List Candle) (p : Nat) (k n : Nat) (h : p + k < n) :
    adxIter (c.take n) p k = adxIter c p k := by
  induction k with
  | zero =>
      unfold adxIter
      refine adxStep_take c p n p none (by omega) (by omega)
  | succ k ih =>
      unfold adxIter
      rw [ih (by omega), adxStep_take c p n (p + k + 1) _ (by omega) (by omega)]

theorem calculateADX_length (c : List Candle) (p : Nat) :
    (calculateADX c p).length = c.length := by
  unfold calculateADX
  split <;> simp

theorem calculateADX_getD (c : List Candle) (p i : Nat) (h2 : p * 2 ≤ c.length)
    (hp : p ≤ i) (hi : i < c.length) :
    (calculateADX c p).getD i none = some (adxIter c p (i - p)).2 := by
  unfold calculateADX
  rw [if_neg (Nat.not_lt.2 h2), getD_range_map _ _ _ _ hi, if_neg (Nat.not_lt.2 hp)]

/-- C4, amended: `calculateADX` produces a sample at an index `i` of the
input exactly when the series has at least `2 × period` candles and
`i ≥ period`; in particular `results[i]` is `undefined` for every
`i < period`, but (contrary to the claim) samples are already present for
`period ≤ i < 2 × period`. -/
theorem c4_adx_sample_presence (c : List Candle) (p i : Nat) (hi : i < c.length) :
    (calculateADX c p).getD i none = none ↔ (c.length < p * 2 ∨ i < p) := by
  unfold calculateADX
  split
  · next h => simp [getD_replicate_none, h]
  · next h =>
      rw [getD_range_map _ _ _ _ hi]
      split
      · next hip => simp [hip]
      · next hip => simp [h, hip]

/-- C4, counterexample: with `period = 1` and three candles, the sample at
index 1 is present although `1 < 2 × period`, refuting "results[i] is
undefined for every i < 2×period". -/
theorem c4_counterexample :
    (calculateADX candlesUp3 1).getD 1 none ≠ none ∧ 1 < 1 * 2 := by
  constructor
  · decide
  · decide

/-- Witness for `c4_adx_sample_presence` at `period = 1`, `i = 1`. -/
theorem c4_witness :
    1 < candlesUp3.length ∧
      ((calculateADX candlesUp3 1).getD 1 none = none ↔ (candlesUp3.length < 1 * 2 ∨ 1 < 1)) :=
  ⟨by decide, c4_adx_sample_presence candlesUp3 1 1 (by decide)⟩

/-- C6: per-query recomputation over a prefix equals the single
left-to-right pass — the last entry of `calculateADX` on the length
`i + 1` prefix equals entry `i` of `calculateADX` on the full series, and
`getADXValue` (which recomputes over the prefix slice exactly as
`ADXScreeningStrategy.screen` does) returns that entry's `adx` value. -/
theorem c6_adx_recompute_eq (c : List Candle) (p i : Nat) (hp : 0 < p)
    (h2 : p * 2 ≤ i + 1) (hi : i < c.length) :
    (calculateADX (c.take (i + 1)) p).getD ((calculateADX (c.take (i + 1)) p).length - 1) none
        = (calculateADX c p).getD i none
      ∧ getADXValue c i p = ((calculateADX c p).getD i none).map ADXResult.adx := by
  have hlen : (c.take (i + 1)).length = i + 1 := by
    rw [List.length_take]; omega
  have hpi : p ≤ i := by omega
  have key : (calculateADX (c.take (i + 1)) p).getD i none = (calculateADX c p).getD i none := by
    rw [calculateADX_getD (c.take (i + 1)) p i (by omega) hpi (by omega),
      calculateADX_getD c p i (by omega) hpi hi,
      adxIter_take c p (i - p) (i + 1) (by omega)]
  have hidx : (calculateADX (c.take (i + 1)) p).length - 1 = i := by
    rw [calculateADX_length, hlen]
    omega
  constructor
  · rw [hidx]; exact key
  · unfold getADXValue
    dsimp only
    rw [hidx]
    exact congrArg (Option.map ADXResult.adx) key

/-- Witness for `c6_adx_recompute_eq` at `period = 1`, `i = 2`, four
rising candles. -/
theorem c6_witness :
    0 < 1 ∧ 1 * 2 ≤ 2 + 1 ∧ 2 < candlesUp4.length ∧
      ((calculateADX (candlesUp4.take (2 + 1)) 1).getD
            ((calculateADX (candlesUp4.take (2 + 1)) 1).length - 1) none
          = (calculateADX candlesUp4 1).getD 2 none
        ∧ getADXValue candlesUp4 2 1 = ((calculateADX candlesUp4 1).getD 2 none).map ADXResult.adx) :=
  ⟨by decide, by decide, by decide,
    c6_adx_recompute_eq candlesUp4 1 2 (by decide) (by decide) (by decide)⟩

/-! The candle-loop invariant of `BacktestEngine.run`. -/

theorem openPosition_entryIndex (cfg : BacktestConfig) (c : List Candle) (i : Nat) :
    (openPosition cfg c i).entryIndex = i := by
  unfold openPosition
  cases cfg.tradingMode <;> rfl

theorem mkTrade_entryIndex (cfg : BacktestConfig) (c : List Candle) (pos : Position)
    (i : Nat) (cap : ℚ) : (mkTrade cfg c pos i cap).entryIndex = pos.entryIndex := rfl

theorem mkTrade_exitIndex (cfg : BacktestConfig) (c : List Candle) (pos : Position)
    (i : Nat) (cap : ℚ) : (mkTrade cfg c pos i cap).exitIndex = i := rfl

theorem mkTrade_type (cfg : BacktestConfig) (c : List Candle) (pos : Position)
    (i : Nat) (cap : ℚ) : (mkTrade cfg c pos i cap).type = pos.type := rfl

theorem mkTrade_entryPrice (cfg : BacktestConfig) (c : List Candle) (pos : Position)
    (i : Nat) (cap : ℚ) : (mkTrade cfg c pos i cap).entryPrice = pos.entryPrice := rfl

theorem ddStep_cap (a : EquityAcc) (x : ℚ) : (ddStep a x).cap = a.cap + x := rfl

theorem ddStep_peak (a : EquityAcc) (x : ℚ) : (ddStep a x).peak = max a.peak (a.cap + x) := rfl

theorem ddStep_dd (a : EquityAcc) (x : ℚ) :
    (ddStep a x).dd = max a.dd (max a.peak (a.cap + x) - (a.cap + x)) := rfl

theorem mhpReached_false (H d : Nat) (hH : 0 < H)
    (h : mhpReached (some H) d = false) : d < H := by
  unfold mhpReached at h
  rw [Bool.and_eq_false_iff] at h
  rcases h with h | h
  · have : H = 0 := by simpa using h
    omega
  · have : ¬ H ≤ d := by simpa using h
    omega

/-- Everything the candle loop preserves after processing indices
`0, …, n-1`: the equity trace matches `equityFold`, trade indices are
strictly increasing and bounded, trades are chronologically chained,
the open position postdates every closed trade and was built by the
entry branch, and while a holding-period cap is active the position
cannot have survived a defined signal past the cap. -/
structure LoopInv (cfg : BacktestConfig) (candles : List Candle)
    (scrs : List (Option ScreeningResult)) (n : Nat) (st : RunState) : Prop where
  cap_eq : st.capital = (equityFold cfg.initialCapital (st.trades.map Trade.pnl)).cap
  peak_eq : st.peakCapital = (equityFold cfg.initialCapital (st.trades.map Trade.pnl)).peak
  dd_eq : st.maxDrawdown = (equityFold cfg.initialCapital (st.trades.map Trade.pnl)).dd
  bounds : ∀ t ∈ st.trades, t.entryIndex < t.exitIndex ∧ t.exitIndex < n
  chain : List.Chain' (fun a b => a.exitIndex < b.entryIndex) st.trades
  pos_lt : ∀ p, st.position = some p → p.entryIndex < n
  pos_after : ∀ p, st.position = some p → ∀ t ∈ st.trades, t.exitIndex < p.entryIndex
  pos_open : ∀ p, st.position = some p → p = openPosition cfg candles p.entryIndex
  trade_open : ∀ t ∈ st.trades,
      t.type = (openPosition cfg candles t.entryIndex).type ∧
      t.entryPrice = (openPosition cfg candles t.entryIndex).entryPrice
  hold : ∀ p, st.position = some p → ∀ H, cfg.maxHoldingPeriod = some H → 0 < H →
      ∀ j, p.entryIndex < j → j < n → scrs.getD j none ≠ none → j - p.entryIndex < H
  dur : ∀ t ∈ st.trades, ∀ H, cfg.maxHoldingPeriod = some H → 0 < H →
      (∀ j, t.entryIndex < j → j ≤ t.entryIndex + H → j < n → scrs.getD j none ≠ none) →
      t.exitIndex - t.entryIndex ≤ H

theorem loopInv_zero (cfg : BacktestConfig) (candles : List Candle)
    (scrs : List (Option ScreeningResult)) :
    LoopInv cfg candles scrs 0 (runStates cfg candles scrs 0) := by
  refine ⟨rfl, rfl, rfl, ?_, ?_, ?_, ?_, ?_, ?_, ?_, ?_⟩ <;>
    simp [runStates, equityFold]

/-- Invariant `LoopInv` survives a step in which the state is unchanged apart from
the signal counter and nothing relevant happened at index `n` (either the
screening result at `n` is absent, or a position is held that did not hit
its holding cap at `n`). -/
theorem loopInv_idle (cfg : BacktestConfig) (candles : List Candle)
    (scrs : List (Option ScreeningResult)) (n : Nat) (st : RunState)
    (ih : LoopInv cfg candles scrs n st)
    (hn : ∀ p, st.position = some p → ∀ H, cfg.maxHoldingPeriod = some H → 0 < H →
      scrs.getD n none ≠ none → n - p.entryIndex < H) (st' : RunState)
    (hcap : st'.capital = st.capital) (hpeak : st'.peakCapital = st.peakCapital)
    (hdd : st'.maxDrawdown = st.maxDrawdown) (hpos : st'.position = st.position)
    (htr : st'.trades = st.trades) :
    LoopInv cfg candles scrs (n + 1) st' := by
  refine ⟨?_, ?_, ?_, ?_, ?_, ?_, ?_, ?_, ?_, ?_, ?_⟩
  · rw [hcap, htr]; exact ih.cap_eq
  · rw [hpeak, htr]; exact ih.peak_eq
  · rw [hdd, htr]; exact ih.dd_eq
  · rw [htr]
    exact fun t ht => ⟨(ih.bounds t ht).1, Nat.lt_succ_of_lt (ih.bounds t ht).2⟩
  · rw [htr]; exact ih.chain
  · rw [hpos]
    exact fun p hp => Nat.lt_succ_of_lt (ih.pos_lt p hp)
  · rw [hpos, htr]; exact ih.pos_after
  · rw [hpos]; exact ih.pos_open
  · rw [htr]; exact ih.trade_open
  · rw [hpos]
    intro p hp H hH hH0 j hj hjn hdef
    rcases Nat.lt_succ_iff_lt_or_eq.1 hjn with h | rfl
    · exact ih.hold p hp H hH hH0 j hj h hdef
    · exact hn p hp H hH hH0 hdef
  · rw [htr]
    intro t ht H hH hH0 hdef
    exact ih.dur t ht H hH hH0 fun j h1 h2 h3 => hdef j h1 h2 (Nat.lt_succ_of_lt h3)

theorem loopInv_step (cfg : BacktestConfig) (candles : List Candle)
    (scrs : List (Option ScreeningResult)) (n : Nat) (st : RunState)
    (ih : LoopInv cfg candles scrs n st) :
    LoopInv cfg candles scrs (n + 1) (runStep cfg candles scrs st n) := by
  unfold runStep
  split
  · -- screening absent at n: state unchanged
    next heq =>
    exact loopInv_idle cfg candles scrs n st ih
      (fun p _ H _ _ hdef => absurd heq hdef) st rfl rfl rfl rfl rfl
  · next s heq =>
    split
    · -- no open position
      next hpos =>
      split
      · -- entry at n
        next hscr =>
        refine ⟨ih.cap_eq, ih.peak_eq, ih.dd_eq, ?_, ih.chain, ?_, ?_, ?_, ih.trade_open, ?_, ?_⟩
        · exact fun t ht => ⟨(ih.bounds t ht).1, Nat.lt_succ_of_lt (ih.bounds t ht).2⟩
        · intro p hp
          have : p = openPosition cfg candles n := by
            simpa using hp.symm
          rw [this, openPosition_entryIndex]
          omega
        · intro p hp t ht
          have hpn : p = openPosition cfg candles n := by
            simpa using hp.symm
          rw [hpn, openPosition_entryIndex]
          exact (ih.bounds t ht).2
        · intro p hp
          have hpn : p = openPosition cfg candles n := by
            simpa using hp.symm
          rw [hpn, openPosition_entryIndex]
        · intro p hp H hH hH0 j hj hjn hdef
          exfalso
          have hpn : p = openPosition cfg candles n := by
            simpa using hp.symm
          rw [hpn, openPosition_entryIndex] at hj
          omega
        · intro t ht H hH hH0 hdef
          exact ih.dur t ht H hH hH0 fun j h1 h2 h3 => hdef j h1 h2 (Nat.lt_succ_of_lt h3)
      · -- lateral signal absent: nothing happens
        next hscr =>
        exact loopInv_idle cfg candles scrs n st ih
          (fun p hp => absurd (hp ▸ hpos) (by simp)) st rfl rfl rfl rfl rfl
    · -- position held
      next position hpos =>
      split
      · -- close at n
        next hexit =>
        have hentry : position.entryIndex < n := ih.pos_lt position hpos
        refine ⟨?_, ?_, ?_, ?_, ?_, ?_, ?_, ?_, ?_, ?_, ?_⟩
        · show st.capital + (mkTrade cfg candles position n st.capital).pnl = _
          simp only [List.map_append, List.map_cons, List.map_nil]
          rw [equityFold_append, ddStep_cap, ← ih.cap_eq]
        · show max st.peakCapital (st.capital + (mkTrade cfg candles position n st.capital).pnl) = _
          simp only [List.map_append, List.map_cons, List.map_nil]
          rw [equityFold_append, ddStep_peak, ← ih.cap_eq, ← ih.peak_eq]
        · show max st.maxDrawdown _ = _
          simp only [List.map_append, List.map_cons, List.map_nil]
          rw [equityFold_append, ddStep_dd, ← ih.cap_eq, ← ih.peak_eq, ← ih.dd_eq]
        · intro t ht
          rcases List.mem_append.1 ht with h | h
          · exact ⟨(ih.bounds t h).1, Nat.lt_succ_of_lt (ih.bounds t h).2⟩
          · have : t = mkTrade cfg candles position n st.capital := by simpa using h
            rw [this, mkTrade_entryIndex, mkTrade_exitIndex]
            omega
        · refine chained_snoc ih.chain ?_
          intro x hx
          rw [mkTrade_entryIndex]
          exact ih.pos_after position hpos x hx
        · intro p hp
          exact absurd hp (by simp)
        · intro p hp
          exact absurd hp (by simp)
        · intro p hp
          exact absurd hp (by simp)
        · intro t ht
          rcases List.mem_append.1 ht with h | h
          · exact ih.trade_open t h
          · have ht' : t = mkTrade cfg candles position n st.capital := by simpa using h
            have hpo := ih.pos_open position hpos
            rw [ht', mkTrade_entryIndex, mkTrade_type, mkTrade_entryPrice]
            exact ⟨congrArg Position.type hpo, congrArg Position.entryPrice hpo⟩
        · intro p hp
          exact absurd hp (by simp)
        · intro t ht H hH hH0 hdef
          rcases List.mem_append.1 ht with h | h
          · exact ih.dur t h H hH hH0 fun j h1 h2 h3 => hdef j h1 h2 (Nat.lt_succ_of_lt h3)
          · have ht' : t = mkTrade cfg candles position n st.capital := by simpa using h
            rw [ht', mkTrade_entryIndex, mkTrade_exitIndex]
            rw [ht', mkTrade_entryIndex] at hdef
            by_contra hgt
            have hj : position.entryIndex + H < n := by omega
            have hne := hdef (position.entryIndex + H) (by omega) (by omega) (by omega)
            have := ih.hold position hpos H hH hH0 (position.entryIndex + H)
              (by omega) hj hne
            omega
      · -- holding through n
        next hexit =>
        refine loopInv_idle cfg candles scrs n st ih ?_ _ rfl rfl rfl rfl rfl
        intro p hp H hH hH0 _
        have hpp : p = position := by
          rw [hpos] at hp
          simpa using hp.symm
        rw [Bool.or_eq_true, not_or] at hexit
        rcases hexit with ⟨_, hmhp⟩
        rw [hH] at hmhp
        exact hpp ▸ mhpReached_false H (n - position.entryIndex) hH0
          (Bool.not_eq_true _ ▸ hmhp)

theorem loopInv_all (cfg : BacktestConfig) (candles : List Candle)
    (scrs : List (Option ScreeningResult)) :
    ∀ n, LoopInv cfg candles scrs n (runStates cfg candles scrs n) := by
  intro n
  induction n with
  | zero => exact loopInv_zero cfg candles scrs
  | succ n ih => exact loopInv_step cfg candles scrs n _ ih

/-! Projections of `calculateMetrics` and `forcedClose`, and the
decomposition of `run` into loop state, forced close and metrics. -/

theorem metrics_trades (cfg : BacktestConfig) (tr : List Trade) (fc dd : ℚ) (sg : Nat) :
    (calculateMetrics cfg tr fc dd sg).trades = tr := rfl

theorem metrics_finalCapital (cfg : BacktestConfig) (tr : List Trade) (fc dd : ℚ) (sg : Nat) :
    (calculateMetrics cfg tr fc dd sg).finalCapital = fc := rfl

theorem metrics_maxDrawdown (cfg : BacktestConfig) (tr : List Trade) (fc dd : ℚ) (sg : Nat) :
    (calculateMetrics cfg tr fc dd sg).maxDrawdown = dd := rfl

theorem metrics_totalPnL (cfg : BacktestConfig) (tr : List Trade) (fc dd : ℚ) (sg : Nat) :
    (calculateMetrics cfg tr fc dd sg).totalPnL = (tr.map Trade.pnl).sum := rfl

theorem metrics_totalTrades (cfg : BacktestConfig) (tr : List Trade) (fc dd : ℚ) (sg : Nat) :
    (calculateMetrics cfg tr fc dd sg).totalTrades = tr.length := rfl

theorem metrics_winningTrades (cfg : BacktestConfig) (tr : List Trade) (fc dd : ℚ) (sg : Nat) :
    (calculateMetrics cfg tr fc dd sg).winningTrades
      = (tr.filter fun t => 0 < t.pnl).length := rfl

theorem metrics_winRate (cfg : BacktestConfig) (tr : List Trade) (fc dd : ℚ) (sg : Nat) :
    (calculateMetrics cfg tr fc dd sg).winRate
      = (if 0 < tr.length
         then (((tr.filter fun t => 0 < t.pnl).length : ℚ) / (tr.length : ℚ))
         else 0) * 100 := rfl

theorem metrics_profitFactor (cfg : BacktestConfig) (tr : List Trade) (fc dd : ℚ) (sg : Nat) :
    (calculateMetrics cfg tr fc dd sg).profitFactor
      = if 0 < grossLossOf tr then PF.finite (grossProfitOf tr / grossLossOf tr)
        else if 0 < grossProfitOf tr then PF.posInf
        else PF.finite 0 := rfl

theorem run_eq (cfg : BacktestConfig) (params : ADXScreeningParams) (candles : List Candle) :
    run cfg params candles =
      calculateMetrics cfg
        (forcedClose cfg candles (runLoop cfg candles (screenAll params candles))).trades
        (forcedClose cfg candles (runLoop cfg candles (screenAll params candles))).capital
        (forcedClose cfg candles (runLoop cfg candles (screenAll params candles))).maxDrawdown
        (forcedClose cfg candles (runLoop cfg candles (screenAll params candles))).screeningSignals
      := rfl

theorem forcedClose_maxDrawdown (cfg : BacktestConfig) (candles : List Candle) (st : RunState) :
    (forcedClose cfg candles st).maxDrawdown = st.maxDrawdown := by
  unfold forcedClose
  split
  · rfl
  · split
    · rfl
    · rfl

theorem forcedClose_cases (cfg : BacktestConfig) (candles : List Candle) (st : RunState) :
    ((forcedClose cfg candles st).trades = st.trades ∧
      (forcedClose cfg candles st).capital = st.capital) ∨
    ∃ p, st.position = some p ∧ candles.length ≠ 0 ∧
      (forcedClose cfg candles st).trades
          = st.trades ++ [mkTrade cfg candles p (candles.length - 1) st.capital] ∧
      (forcedClose cfg candles st).capital
          = st.capital + (mkTrade cfg candles p (candles.length - 1) st.capital).pnl := by
  rcases hp : st.position with _ | p
  · left
    constructor <;> simp [forcedClose, hp]
  · by_cases hc : candles.length = 0
    · left
      constructor <;> simp [forcedClose, hp, hc]
    · right
      exact ⟨p, rfl, hc, by simp [forcedClose, hp, hc], by simp [forcedClose, hp, hc]⟩

/-- The entry-branch provenance of every reported trade: its side and
entry price are those of `openPosition` at its entry index. -/
theorem runTrades_open (cfg : BacktestConfig) (params : ADXScreeningParams)
    (candles : List Candle) :
    ∀ t ∈ (run cfg params candles).trades,
      t.type = (openPosition cfg candles t.entryIndex).type ∧
      t.entryPrice = (openPosition cfg candles t.entryIndex).entryPrice := by
  intro t ht
  rw [run_eq, metrics_trades] at ht
  have inv := loopInv_all cfg candles (screenAll params candles) candles.length
  rcases forcedClose_cases cfg candles (runLoop cfg candles (screenAll params candles))
    with ⟨htr, _⟩ | ⟨p, hp, _, htr, _⟩
  · rw [htr] at ht
    exact inv.trade_open t ht
  · rw [htr] at ht
    rcases List.mem_append.1 ht with h | h
    · exact inv.trade_open t h
    · have ht' : t = mkTrade cfg candles p (candles.length - 1)
          (runLoop cfg candles (screenAll params candles)).capital := by simpa using h
      have hpo := inv.pos_open p hp
      rw [ht', mkTrade_entryIndex, mkTrade_type, mkTrade_entryPrice]
      exact ⟨congrArg Position.type hpo, congrArg Position.entryPrice hpo⟩

/-! Claim theorems. -/

/-- C5: reconciliation law — the result's `finalCapital` equals
`initialCapital` plus the sum of `pnl` over all reported trades, exactly
(in the exact rational arithmetic of the embedding), and equals the
result's `totalPnL` plus `initialCapital`. -/
theorem c5_reconciliation (cfg : BacktestConfig) (params : ADXScreeningParams)
    (candles : List Candle) :
    (run cfg params candles).finalCapital
        = cfg.initialCapital + ((run cfg params candles).trades.map Trade.pnl).sum
      ∧ (run cfg params candles).finalCapital
        = (run cfg params candles).totalPnL + cfg.initialCapital := by
  have inv := loopInv_all cfg candles (screenAll params candles) candles.length
  have hloop : (runLoop cfg candles (screenAll params candles)).capital
      = cfg.initialCapital
        + ((runLoop cfg candles (screenAll params candles)).trades.map Trade.pnl).sum := by
    unfold runLoop
    rw [inv.cap_eq, equityFold_cap]
  have key : (forcedClose cfg candles (runLoop cfg candles (screenAll params candles))).capital
      = cfg.initialCapital
        + ((forcedClose cfg candles
            (runLoop cfg candles (screenAll params candles))).trades.map Trade.pnl).sum := by
    rcases forcedClose_cases cfg candles (runLoop cfg candles (screenAll params candles))
      with ⟨htr, hcap⟩ | ⟨p, _, _, htr, hcap⟩
    · rw [htr, hcap]
      exact hloop
    · rw [htr, hcap, hloop]
      simp only [List.map_append, List.map_cons, List.map_nil, List.sum_append,
        List.sum_cons, List.sum_nil]
      ring
  constructor
  · rw [run_eq, metrics_finalCapital, metrics_trades]
    exact key
  · rw [run_eq, metrics_finalCapital, metrics_totalPnL, key]
    ring

/-- C10: trades are chronological and non-overlapping — each consecutive
pair in the reported trade list satisfies
`earlier.exitIndex < later.entryIndex`. -/
theorem c10_trades_chained (cfg : BacktestConfig) (params : ADXScreeningParams)
    (candles : List Candle) :
    List.Chain' (fun a b => a.exitIndex < b.entryIndex) (run cfg params candles).trades := by
  have inv := loopInv_all cfg candles (screenAll params candles) candles.length
  rw [run_eq, metrics_trades]
  rcases forcedClose_cases cfg candles (runLoop cfg candles (screenAll params candles))
    with ⟨htr, _⟩ | ⟨p, hp, _, htr, _⟩
  · rw [htr]
    exact inv.chain
  · rw [htr]
    refine chained_snoc inv.chain ?_
    intro x hx
    rw [mkTrade_entryIndex]
    exact inv.pos_after p hp x hx

/-- C7: profit-factor degenerate-case conventions — the `profitFactor`
field is `grossProfit / grossLoss` when `grossLoss > 0`, `+infinity` when
`grossLoss = 0` and `grossProfit > 0`, and `0` when both are `0` (stated
via `specProfitFactor`, which transcribes the spec's conventions). -/
theorem c7_profit_factor (cfg : BacktestConfig) (params : ADXScreeningParams)
    (candles : List Candle) :
    (run cfg params candles).profitFactor
      = specProfitFactor (grossProfitOf (run cfg params candles).trades)
          (grossLossOf (run cfg params candles).trades) := by
  rw [run_eq, metrics_profitFactor, metrics_trades]
  unfold specProfitFactor
  set gp := grossProfitOf (forcedClose cfg candles
    (runLoop cfg candles (screenAll params candles))).trades with hgp
  set gl := grossLossOf (forcedClose cfg candles
    (runLoop cfg candles (screenAll params candles))).trades with hgl
  have hnn : 0 ≤ gl := by
    rw [hgl]
    exact abs_nonneg _
  by_cases h : 0 < gl
  · rw [if_pos h, if_pos h]
  · rw [if_neg h, if_neg h]
    have h0 : gl = 0 := le_antisymm (not_lt.1 h) hnn
    by_cases hgp0 : 0 < gp
    · rw [if_pos hgp0, if_pos ⟨h0, hgp0⟩]
    · rw [if_neg hgp0, if_neg (by tauto)]

/-- C9, amended: the `winRate` field is the win fraction expressed in
percent — `100 × winningTrades / totalTrades` when at least one trade
exists, and `0` otherwise (the claim omitted the factor 100). -/
theorem c9_winrate_amended (cfg : BacktestConfig) (params : ADXScreeningParams)
    (candles : List Candle) :
    (run cfg params candles).winRate
      = if 0 < (run cfg params candles).totalTrades
        then 100 * ((run cfg params candles).winningTrades : ℚ)
              / ((run cfg params candles).totalTrades : ℚ)
        else 0 := by
  rw [run_eq, metrics_winRate, metrics_totalTrades, metrics_winningTrades]
  by_cases h : 0 < (forcedClose cfg candles
      (runLoop cfg candles (screenAll params candles))).trades.length
  · rw [if_pos h, if_pos h]
    ring
  · rw [if_neg h, if_neg h]
    ring

/-- C9, counterexample: a run with one winning trade has `winRate = 100`,
not `winningTrades / totalTrades = 1` as claimed. -/
theorem c9_counterexample :
    (run cfgPlain paramsP1 candlesUp4).winRate
      ≠ (if 0 < (run cfgPlain paramsP1 candlesUp4).totalTrades
         then ((run cfgPlain paramsP1 candlesUp4).winningTrades : ℚ)
              / ((run cfgPlain paramsP1 candlesUp4).totalTrades : ℚ)
         else 0) := by with_unfolding_all decide

/-- C1, amended: after each trade close inside the candle loop the
accumulators follow `peak = max(peak, capital)`, `dd = max(dd, peak −
capital)` — the loop state exactly matches the equity fold over the
loop-closed trades — but the end-of-run forced close leaves `peakCapital`
and `maxDrawdown` untouched, and the result reports the loop's
`maxDrawdown`, so the reported figure accounts for every loop-closed
trade but not for a forced-close trade. -/
theorem c1_drawdown_amended (cfg : BacktestConfig) (params : ADXScreeningParams)
    (candles : List Candle) :
    (run cfg params candles).maxDrawdown
        = (runLoop cfg candles (screenAll params candles)).maxDrawdown
      ∧ (runLoop cfg candles (screenAll params candles)).capital
          = (equityFold cfg.initialCapital
              ((runLoop cfg candles (screenAll params candles)).trades.map Trade.pnl)).cap
      ∧ (runLoop cfg candles (screenAll params candles)).peakCapital
          = (equityFold cfg.initialCapital
              ((runLoop cfg candles (screenAll params candles)).trades.map Trade.pnl)).peak
      ∧ (runLoop cfg candles (screenAll params candles)).maxDrawdown
          = (equityFold cfg.initialCapital
              ((runLoop cfg candles (screenAll params candles)).trades.map Trade.pnl)).dd := by
  have inv := loopInv_all cfg candles (screenAll params candles) candles.length
  refine ⟨?_, ?_, ?_, ?_⟩
  · rw [run_eq, metrics_maxDrawdown, forcedClose_maxDrawdown]
  · exact inv.cap_eq
  · exact inv.peak_eq
  · exact inv.dd_eq

/-- C1, counterexample: a run whose only trade is the end-of-run forced
close reports `maxDrawdown = 0`, while the equity fold over all reported
trades has a positive drawdown — the forced close is not accounted for. -/
theorem c1_counterexample :
    (run cfgPlain paramsP1 candlesDrop4).maxDrawdown
      ≠ (equityFold cfgPlain.initialCapital
          ((run cfgPlain paramsP1 candlesDrop4).trades.map Trade.pnl)).dd := by
  with_unfolding_all decide

/-- C2, amended: every reported trade satisfies
`entryIndex ≤ exitIndex ≤ lastCandleIndex`, and `exitIndex = entryIndex`
can happen only for the forced close of a position opened on the final
candle; the claimed strict `exitIndex > entryIndex` fails there. -/
theorem c2_trade_bounds_amended (cfg : BacktestConfig) (params : ADXScreeningParams)
    (candles : List Candle) :
    ∀ t ∈ (run cfg params candles).trades,
      t.entryIndex ≤ t.exitIndex ∧ t.exitIndex ≤ candles.length - 1 ∧
        (t.exitIndex = t.entryIndex → t.exitIndex = candles.length - 1) := by
  intro t ht
  have inv := loopInv_all cfg candles (screenAll params candles) candles.length
  rw [run_eq, metrics_trades] at ht
  rcases forcedClose_cases cfg candles (runLoop cfg candles (screenAll params candles))
    with ⟨htr, _⟩ | ⟨p, hp, hc, htr, _⟩
  · rw [htr] at ht
    have hb := inv.bounds t ht
    omega
  · rw [htr] at ht
    rcases List.mem_append.1 ht with h | h
    · have hb := inv.bounds t h
      omega
    · have ht' : t = mkTrade cfg candles p (candles.length - 1)
          (runLoop cfg candles (screenAll params candles)).capital := by simpa using h
      have hplt := inv.pos_lt p hp
      rw [ht', mkTrade_entryIndex, mkTrade_exitIndex]
      omega

/-- C2, counterexample: with three candles the only screening signal is on
the final candle; the position opened there is force-closed at the same
index, producing a trade with `exitIndex = entryIndex`. -/
theorem c2_counterexample :
    ¬ ∀ t ∈ (run cfgPlain paramsP1 candlesUp3).trades,
        t.entryIndex < t.exitIndex ∧ t.exitIndex ≤ candlesUp3.length - 1 := by
  with_unfolding_all decide

/-- Witness for `c2_trade_bounds_amended` on the four-candle run with one
trade entered at index 2 and exited at index 3. -/
theorem c2_witness :
    ((run cfgPlain paramsP1 candlesUp4).trades.getD 0 default).entryIndex
        ≤ ((run cfgPlain paramsP1 candlesUp4).trades.getD 0 default).exitIndex ∧
      ((run cfgPlain paramsP1 candlesUp4).trades.getD 0 default).exitIndex
        ≤ candlesUp4.length - 1 ∧
      (((run cfgPlain paramsP1 candlesUp4).trades.getD 0 default).exitIndex
          = ((run cfgPlain paramsP1 candlesUp4).trades.getD 0 default).entryIndex →
        ((run cfgPlain paramsP1 candlesUp4).trades.getD 0 default).exitIndex
          = candlesUp4.length - 1) :=
  c2_trade_bounds_amended cfgPlain paramsP1 candlesUp4 _ (by with_unfolding_all decide)

/-- C3, amended: with `maxHoldingPeriod = H > 0`, a trade's duration is at
most `H` provided every index in `(entryIndex, entryIndex + H]` that lies
in the series carries a present screening signal; trades whose holding
window contains absent signals (skipped candles) or that are closed by the
end-of-run forced close can exceed `H`. -/
theorem c3_holding_amended (cfg : BacktestConfig) (params : ADXScreeningParams)
    (candles : List Candle) (H : Nat)
    (hH : cfg.maxHoldingPeriod = some H) (hH0 : 0 < H) :
    ∀ t ∈ (run cfg params candles).trades,
      (∀ j < candles.length, t.entryIndex < j → j ≤ t.entryIndex + H →
        (screenAll params candles).getD j none ≠ none) →
      t.exitIndex - t.entryIndex ≤ H := by
  intro t ht hdef
  have inv := loopInv_all cfg candles (screenAll params candles) candles.length
  rw [run_eq, metrics_trades] at ht
  rcases forcedClose_cases cfg candles (runLoop cfg candles (screenAll params candles))
    with ⟨htr, _⟩ | ⟨p, hp, hc, htr, _⟩
  · rw [htr] at ht
    exact inv.dur t ht H hH hH0 fun j h1 h2 h3 => hdef j h3 h1 h2
  · rw [htr] at ht
    rcases List.mem_append.1 ht with h | h
    · exact inv.dur t h H hH hH0 fun j h1 h2 h3 => hdef j h3 h1 h2
    · have ht' : t = mkTrade cfg candles p (candles.length - 1)
          (runLoop cfg candles (screenAll params candles)).capital := by simpa using h
      have hplt := inv.pos_lt p hp
      rw [ht', mkTrade_entryIndex, mkTrade_exitIndex]
      rw [ht', mkTrade_entryIndex] at hdef
      by_contra hgt
      have hj := hdef (p.entryIndex + H) (by omega) (by omega) (by omega)
      have := inv.hold p hp H hH hH0 (p.entryIndex + H) (by omega) (by omega) hj
      omega

/-- C3, counterexample: with `maxHoldingPeriod = 1`, a position entered at
index 2 survives the absent-signal candles 3 and 4 and is force-closed at
index 4 with duration `2 > 1`. -/
theorem c3_counterexample :
    cfgHold1.maxHoldingPeriod = some 1 ∧
      ¬ ∀ t ∈ (run cfgHold1 paramsP1 candlesDrop5).trades,
          t.exitIndex - t.entryIndex ≤ 1 :=
  ⟨rfl, by with_unfolding_all decide⟩

/-- Witness for `c3_holding_amended`: on five rising candles with
`maxHoldingPeriod = 1`, the first trade has a present signal right after
entry and its duration is `1 ≤ 1`. -/
theorem c3_witness :
    cfgHold1.maxHoldingPeriod = some 1 ∧ 0 < 1 ∧
      ((run cfgHold1 paramsP1 candlesUp5).trades.getD 0 default).exitIndex
          - ((run cfgHold1 paramsP1 candlesUp5).trades.getD 0 default).entryIndex ≤ 1 :=
  ⟨rfl, Nat.one_pos,
    c3_holding_amended cfgHold1 paramsP1 candlesUp5 1 rfl Nat.one_pos _
      (by with_unfolding_all decide) (by with_unfolding_all decide)⟩

/-- C8: under trading mode `long` or `both` every reported trade is a long
entered at `close × (1 + slippage)`; a short trade (entered at
`close × (1 − slippage)`) can only arise under mode `short` — in
particular mode `both` never yields a short. -/
theorem c8_trading_mode (cfg : BacktestConfig) (params : ADXScreeningParams)
    (candles : List Candle) :
    ∀ t ∈ (run cfg params candles).trades,
      ((cfg.tradingMode = TradingMode.long ∨ cfg.tradingMode = TradingMode.both) →
        t.type = PosType.long ∧
          t.entryPrice = (candles.getD t.entryIndex default).close * (1 + cfg.slippage)) ∧
      (t.type = PosType.short →
        cfg.tradingMode = TradingMode.short ∧
          t.entryPrice = (candles.getD t.entryIndex default).close * (1 - cfg.slippage)) := by
  intro t ht
  obtain ⟨hty, hpr⟩ := runTrades_open cfg params candles t ht
  rcases hmode : cfg.tradingMode with _ | _ | _
  · simp only [openPosition, hmode] at hty hpr
    refine ⟨fun _ => ⟨hty, hpr⟩, fun hshort => ?_⟩
    rw [hty] at hshort
    exact PosType.noConfusion hshort
  · simp only [openPosition, hmode] at hty hpr
    refine ⟨fun hlb => ?_, fun _ => ⟨rfl, hpr⟩⟩
    rcases hlb with h | h <;> exact TradingMode.noConfusion h
  · simp only [openPosition, hmode] at hty hpr
    refine ⟨fun _ => ⟨hty, hpr⟩, fun hshort => ?_⟩
    rw [hty] at hshort
    exact PosType.noConfusion hshort

/-- Witness for `c8_trading_mode`: the four-candle long-mode run's trade
is a long entered at the index-2 close (zero slippage). -/
theorem c8_witness :
    ((run cfgPlain paramsP1 candlesUp4).trades.getD 0 default).type = PosType.long ∧
      ((run cfgPlain paramsP1 candlesUp4).trades.getD 0 default).entryPrice
        = (candlesUp4.getD
            ((run cfgPlain paramsP1 candlesUp4).trades.getD 0 default).entryIndex
            default).close * (1 + cfgPlain.slippage) :=
  (c8_trading_mode cfgPlain paramsP1 candlesUp4 _ (by with_unfolding_all decide)).1
    (Or.inl rfl)

end ADXBacktest
